import Mathlib

set_option linter.unusedVariables false

/-!
Verification of the UltraCortex image-quality-metric module
(`ultracortex/metrics.py` and `ultracortex/runner.py`) against its
natural-language specification.

Volumes are embedded as flattened lists of real intensities (`List ℝ`)
and label arrays as flattened lists of integers (`List ℤ`); all four
metric functions only ever consume the flat voxel sequence (numpy
reductions and boolean masking act elementwise), so flattening is
faithful as long as a volume and its co-registered label array are
flattened in the same order.  Floating-point arithmetic is modelled by
exact real arithmetic; Lean's convention `x / 0 = 0` replaces the IEEE
infinities/NaN of a zero denominator (no theorem below depends on that
case, except where a dedicated NaN-propagation model is introduced).
-/

/- ------------------------------------------------------------------ -/
/- Python rounding.  Every metric function in `metrics.py` ends with
   `round(value, decimals)`.  Python 3 `round` rounds half to even. -/

/-- Round a real to the nearest integer, ties to even, as Python round does. -/
noncomputable def roundHalfEven (x : ℝ) : ℤ :=
  if x - ⌊x⌋ < 1 / 2 then ⌊x⌋
  else if 1 / 2 < x - ⌊x⌋ then ⌊x⌋ + 1
  else if Even ⌊x⌋ then ⌊x⌋ else ⌊x⌋ + 1

/-- Python `round(x, decimals)` on real-valued semantics. -/
noncomputable def pyRound (x : ℝ) (decimals : ℕ) : ℝ :=
  (roundHalfEven (x * 10 ^ decimals) : ℝ) / 10 ^ decimals

/- ------------------------------------------------------------------ -/
/- Numpy collaborators used by `metrics.py`. -/

/-- Embedding of `np.mean`: sum divided by element count
    (for an empty list Lean yields 0/0 = 0; numpy yields NaN — the
    NaN-propagation model below makes that case explicit). -/
noncomputable def npMean (xs : List ℝ) : ℝ := xs.sum / xs.length

/-- Embedding of `np.std`: population standard deviation,
    square root of the mean squared deviation (divide by N, not N-1). -/
noncomputable def npStd (xs : List ℝ) : ℝ :=
  Real.sqrt ((xs.map (fun x => (x - npMean xs) ^ 2)).sum / xs.length)

/- ------------------------------------------------------------------ -/
/- Segmentation label constants from `metrics.py`. -/

/-- White matter labels (`WM_LABELS = [2, 41]`). -/
def WM_LABELS : List ℤ := [2, 41]

/-- Gray matter labels (`GM_LABELS = [3, 42]`). -/
def GM_LABELS : List ℤ := [3, 42]

/-- Background labels (`BG_LABELS = [0]`). -/
def BG_LABELS : List ℤ := [0]

/-- Embedding of `np.isin(seg, labels)`: the boolean mask marking voxels
    whose label value is a member of `labels`. -/
def isin (seg : List ℤ) (labels : List ℤ) : List Bool :=
  seg.map (fun v => decide (v ∈ labels))

/-- Embedding of numpy boolean-mask indexing `img[mask]` for a mask of the
    same shape: keep the intensities at positions where the mask is true. -/
def maskSelect (img : List ℝ) (mask : List Bool) : List ℝ :=
  ((img.zip mask).filter (fun p => p.2)).map Prod.fst

/-- Embedding of `img[framemask == 0]` in `efc`: the intensities at
    positions whose framemask entry equals 0. -/
def included (img : List ℝ) (mask : List ℤ) : List ℝ :=
  ((img.zip mask).filter (fun p => p.2 == 0)).map Prod.fst

/- ------------------------------------------------------------------ -/
/- The four metric functions of `metrics.py`.  Each is factored as a
   full-precision core followed by the `round(..., decimals)` of the
   source's return statement. -/

/-- The Entropy Focus Criterion computation of `efc` up to (but not
    including) the final `round` of its return statement.  When
    `framemask` is `none` the source substitutes `np.zeros_like(img)`. -/
noncomputable def efc_core (img : List ℝ) (framemask : Option (List ℤ)) : ℝ :=
  let mask := framemask.getD (List.replicate img.length 0)
  let inc := included img mask
  let n_vox : ℝ := (((mask.map (fun m => 1 - m)).sum : ℤ) : ℝ)
  let efc_max := 1.0 * n_vox * (1.0 / Real.sqrt n_vox) * Real.log (1.0 / Real.sqrt n_vox)
  let b_max := Real.sqrt ((inc.map (fun v => v ^ 2)).sum)
  (1.0 / efc_max) *
    ((inc.map (fun v => (v / b_max) * Real.log ((v + 1e-16) / b_max))).sum)

/-- Embedding of `efc(img, framemask=None, decimals=4)` from `metrics.py`. -/
noncomputable def efc (img : List ℝ) (framemask : Option (List ℤ)) (decimals : ℕ) : ℝ :=
  pyRound (efc_core img framemask) decimals

/-- The Signal-to-Noise Ratio computation of `anatomical_snr` before its
    final `round`. -/
noncomputable def anatomical_snr_core (img : List ℝ) : ℝ :=
  let mean_intensity := npMean img
  let std_intensity := npStd img
  let n_voxels : ℝ := img.length
  mean_intensity / (std_intensity * Real.sqrt (n_voxels / (n_voxels - 1)))

/-- Embedding of `anatomical_snr(img, decimals=4)` from `metrics.py`. -/
noncomputable def anatomical_snr (img : List ℝ) (decimals : ℕ) : ℝ :=
  pyRound (anatomical_snr_core img) decimals

/-- The Contrast-to-Noise Ratio computation of `cnr` before its final
    `round`. -/
noncomputable def cnr_core (img : List ℝ) (seg : List ℤ) : ℝ :=
  let wm_mask := isin seg WM_LABELS
  let gm_mask := isin seg GM_LABELS
  let bg_mask := isin seg BG_LABELS
  let mean_wm := npMean (maskSelect img wm_mask)
  let std_wm := npStd (maskSelect img wm_mask)
  let mean_gm := npMean (maskSelect img gm_mask)
  let std_gm := npStd (maskSelect img gm_mask)
  let std_bg := npStd (maskSelect img bg_mask)
  (mean_wm - mean_gm) / Real.sqrt (std_bg ^ 2 + std_wm ^ 2 + std_gm ^ 2)

/-- Embedding of `cnr(img, seg, decimals=4)` from `metrics.py`. -/
noncomputable def cnr (img : List ℝ) (seg : List ℤ) (decimals : ℕ) : ℝ :=
  pyRound (cnr_core img seg) decimals

/-- The body of `cjv` before its final `round`, with the module-level
    label constants `WM_LABELS`/`GM_LABELS` taken as parameters (the spec
    requires the tissue label sets to remain configurable constants). -/
noncomputable def cjv_core_labels (wm gm : List ℤ) (img : List ℝ) (seg : List ℤ) : ℝ :=
  let wm_mask := isin seg wm
  let gm_mask := isin seg gm
  let mean_wm := npMean (maskSelect img wm_mask)
  let std_wm := npStd (maskSelect img wm_mask)
  let mean_gm := npMean (maskSelect img gm_mask)
  let std_gm := npStd (maskSelect img gm_mask)
  (std_wm + std_gm) / |mean_wm - mean_gm|

/-- `cjv` with the label constants as parameters, including the final
    `round`. -/
noncomputable def cjv_with (wm gm : List ℤ) (img : List ℝ) (seg : List ℤ)
    (decimals : ℕ) : ℝ :=
  pyRound (cjv_core_labels wm gm img seg) decimals

/-- Embedding of `cjv(img, seg, decimals=4)` from `metrics.py`: the
    parameterized body applied to the module constants. -/
noncomputable def cjv (img : List ℝ) (seg : List ℤ) (decimals : ℕ) : ℝ :=
  cjv_with WM_LABELS GM_LABELS img seg decimals

/- ------------------------------------------------------------------ -/
/- Spec-side definitions, written from the specification's words, to be
   compared with the source-side embedding (claim C2). -/

/-- Modelled from the spec: "partition voxels into three disjoint masks by
    label-set membership ... membership test is 'label value is one of the
    set's members'": the volume restricted to voxels whose label belongs
    to the given label set. -/
def restrictTo (img : List ℝ) (seg : List ℤ) (labels : List ℤ) : List ℝ :=
  ((img.zip seg).filter (fun p => decide (p.2 ∈ labels))).map Prod.fst

/-- Modelled from the spec: the mean of a selection of voxel intensities. -/
noncomputable def specMean (xs : List ℝ) : ℝ := xs.sum / xs.length

/-- Modelled from the spec: "std is population standard deviation (divide
    by N, not N-1)". -/
noncomputable def specStd (xs : List ℝ) : ℝ :=
  Real.sqrt ((xs.map (fun x => (x - specMean xs) ^ 2)).sum / xs.length)

/- ------------------------------------------------------------------ -/
/- NaN-propagation model for claim C9.  `np.mean`/`np.std` of an empty
   selection produce NaN (`none` here) and NaN propagates through every
   arithmetic operation; Python `round` maps NaN to NaN.  Division by a
   non-NaN zero (which IEEE floats map to an infinity) is not
   distinguished here; no theorem below depends on that case. -/

/-- `np.mean` with numpy's empty-selection NaN made explicit. -/
noncomputable def nanMean (xs : List ℝ) : Option ℝ :=
  if xs.isEmpty then none else some (npMean xs)

/-- `np.std` with numpy's empty-selection NaN made explicit. -/
noncomputable def nanStd (xs : List ℝ) : Option ℝ :=
  if xs.isEmpty then none else some (npStd xs)

/-- A binary floating-point operation: NaN in, NaN out. -/
noncomputable def nanOp2 (f : ℝ → ℝ → ℝ) : Option ℝ → Option ℝ → Option ℝ
  | some x, some y => some (f x y)
  | _, _ => none

/-- Squaring with NaN propagation. -/
noncomputable def nanSq : Option ℝ → Option ℝ :=
  Option.map (fun x => x ^ 2)

/-- `np.sqrt` with NaN propagation (a negative argument also yields NaN). -/
noncomputable def nanSqrt (a : Option ℝ) : Option ℝ :=
  a.bind (fun x => if x < 0 then none else some (Real.sqrt x))

/-- Python `round(·, decimals)`, which maps NaN to NaN. -/
noncomputable def nanRound (a : Option ℝ) (decimals : ℕ) : Option ℝ :=
  a.map (fun x => pyRound x decimals)

/-- The `cnr` pipeline of `metrics.py` with numpy's NaN semantics for
    empty selections made explicit; same source lines as `cnr`, with
    `none` playing the role of NaN. -/
noncomputable def cnrN (img : List ℝ) (seg : List ℤ) (decimals : ℕ) : Option ℝ :=
  let wm_mask := isin seg WM_LABELS
  let gm_mask := isin seg GM_LABELS
  let bg_mask := isin seg BG_LABELS
  let mean_wm := nanMean (maskSelect img wm_mask)
  let std_wm := nanStd (maskSelect img wm_mask)
  let mean_gm := nanMean (maskSelect img gm_mask)
  let std_gm := nanStd (maskSelect img gm_mask)
  let std_bg := nanStd (maskSelect img bg_mask)
  nanRound
    (nanOp2 (· / ·) (nanOp2 (· - ·) mean_wm mean_gm)
      (nanSqrt (nanOp2 (· + ·) (nanOp2 (· + ·) (nanSq std_bg) (nanSq std_wm))
        (nanSq std_gm))))
    decimals

/- ------------------------------------------------------------------ -/
/- Batch orchestrator, `Runner.calculate_metrics` in `runner.py`.
   The filesystem is abstracted per cohort row: each derivative input is
   `some` loaded flat array when the file exists and `none` when it is
   missing; `nib.load` on a missing path raises (`Except.error`). -/

/-- Conversion `np.array(..., dtype=np.int32)` applied to loaded float
    data: truncation toward zero (values are assumed to lie in the int32
    range, as real MRI intensities do). -/
noncomputable def truncInt32 (x : ℝ) : ℤ :=
  if 0 ≤ x then ⌊x⌋ else ⌈x⌉

/-- `ndarray.min()` for the loaded integer volume (numpy raises on an
    empty array; the empty case is never reached by the claims below). -/
def listMinZ : List ℤ → ℤ
  | [] => 0
  | x :: xs => xs.foldl min x

/-- `ndarray.max()` for the loaded integer volume. -/
def listMaxZ : List ℤ → ℤ
  | [] => 0
  | x :: xs => xs.foldl max x

/-- The ways one row of `calculate_metrics` can raise: `nib.load` on a
    missing file, or numpy's `IndexError` when a boolean mask's shape
    does not match the indexed volume's shape. -/
inductive RunError where
  | missingT1w : RunError
  | missingSkullstrip : RunError
  | indexError : RunError
deriving DecidableEq

/-- One cohort row's resolvable inputs: the primary anatomical volume,
    the skull-stripped volume and the manual segmentation, each `none`
    when the corresponding file does not exist. -/
structure RowInput where
  t1w : Option (List ℝ)
  skullstrip : Option (List ℝ)
  seg : Option (List ℤ)

/-- One output record of the metrics table (`EFC`, `T_SNR`, `CNR`, `CJV`);
    `CNR`/`CJV` are `none` when no segmentation was available. -/
structure MetricsRow where
  efc_v : ℝ
  t_snr : ℝ
  cnr_v : Option ℝ
  cjv_v : Option ℝ

/-- `nib.load`: returns the loaded array when the file exists and raises
    (an error carrying the given tag) when it does not.  The source
    performs no existence check before the T1w and skull-strip loads. -/
def nibLoad {α : Type} (err : RunError) (f : Option α) : Except RunError α :=
  match f with
  | some x => Except.ok x
  | none => Except.error err

/-- One iteration of the loop in `Runner.calculate_metrics`, for a single
    cohort row.  Mirrors the source order: load T1w (raises if missing),
    cast to int32, compute EFC (the NaN/Inf check in the source only
    prints a diagnostic and changes no state, so it is omitted), load the
    skull-strip with no existence guard (raises if missing), compute SNR,
    then — only if the segmentation file exists — min-max normalize the
    volume and compute CNR and CJV, else record them as null.  The length
    guard before `cnr`/`cjv` models numpy raising `IndexError` inside the
    boolean masking `img[mask]` when the mask's shape does not match the
    volume's; the source contains no shape validation of its own. -/
noncomputable def processRow (row : RowInput) : Except RunError MetricsRow := do
  let img_fdata ← nibLoad RunError.missingT1w row.t1w
  let img_data := img_fdata.map truncInt32
  let e := efc (img_data.map (fun z => (z : ℝ))) none 4
  let ss ← nibLoad RunError.missingSkullstrip row.skullstrip
  let snr := anatomical_snr ss 4
  match row.seg with
  | some seg =>
    let mn := listMinZ img_data
    let mx := listMaxZ img_data
    let img_norm := img_data.map (fun z => ((z - mn : ℤ) : ℝ) / ((mx - mn : ℤ) : ℝ))
    if seg.length = img_norm.length then
      pure ⟨e, snr, some (cnr img_norm seg 4), some (cjv img_norm seg 4)⟩
    else
      throw RunError.indexError
  | none => pure ⟨e, snr, none, none⟩

/-- `Runner.calculate_metrics` over the whole cohort table: the rows are
    processed sequentially and there is no `try`/`except`, so the first
    raising row aborts the whole batch. -/
noncomputable def calculate_metrics (rows : List RowInput) : Except RunError (List MetricsRow) :=
  rows.mapM processRow

/- ------------------------------------------------------------------ -/
/- Helper lemmas about selections. -/

/-- One step of mask selection. -/
lemma maskSelect_cons (a : ℝ) (as : List ℝ) (m : Bool) (ms : List Bool) :
    maskSelect (a :: as) (m :: ms) =
      if m then a :: maskSelect as ms else maskSelect as ms := by
  by_cases h : m <;> simp [maskSelect, List.filter, List.zip, h]

/-- Selecting from an empty volume yields nothing. -/
lemma maskSelect_nil (mask : List Bool) : maskSelect [] mask = [] := rfl

/-- Selecting with an empty mask yields nothing. -/
lemma maskSelect_nil_mask (img : List ℝ) : maskSelect img [] = [] := by
  simp [maskSelect]

/-- One step of `isin`. -/
lemma isin_cons (v : ℤ) (vs : List ℤ) (L : List ℤ) :
    isin (v :: vs) L = decide (v ∈ L) :: isin vs L := rfl

/-- One step of restriction. -/
lemma restrictTo_cons (a : ℝ) (as : List ℝ) (v : ℤ) (vs : List ℤ) (L : List ℤ) :
    restrictTo (a :: as) (v :: vs) L =
      if v ∈ L then a :: restrictTo as vs L else restrictTo as vs L := by
  by_cases h : v ∈ L <;> simp [restrictTo, List.filter, List.zip, h]

/-- Mask selection through an `isin` mask is exactly restriction to the
    voxels whose label belongs to the label set. -/
lemma maskSelect_isin (img : List ℝ) (seg : List ℤ) (L : List ℤ) :
    maskSelect img (isin seg L) = restrictTo img seg L := by
  induction img generalizing seg with
  | nil => cases seg <;> rfl
  | cons a as ih =>
    cases seg with
    | nil => rfl
    | cons b bs =>
      rw [isin_cons, maskSelect_cons, restrictTo_cons, ih bs]
      by_cases hb : b ∈ L <;> simp [hb]

/-- Zipping two equal-length replicated lists replicates the pair. -/
lemma zip_replicate_eq (n : ℕ) {α β : Type} (a : α) (b : β) :
    (List.replicate n a).zip (List.replicate n b) = List.replicate n (a, b) := by
  induction n with
  | zero => rfl
  | succ m ih => simp [List.replicate_succ, ih]

/-- With an all-zero framemask every voxel of a uniform volume is included. -/
lemma included_replicate (n : ℕ) (c : ℝ) :
    included (List.replicate n c) (List.replicate n 0) = List.replicate n c := by
  induction n with
  | zero => rfl
  | succ m ih =>
    simp only [List.replicate_succ, included, List.zip_cons_cons, List.filter] at ih ⊢
    simp [ih]

/-- If no voxel of the label array carries a label from `L`, the `isin`
    selection is empty. -/
lemma maskSelect_isin_nil (img : List ℝ) (seg : List ℤ) (L : List ℤ)
    (h : ∀ v ∈ seg, v ∉ L) :
    maskSelect img (isin seg L) = [] := by
  induction img generalizing seg with
  | nil => cases seg <;> rfl
  | cons a as ih =>
    cases seg with
    | nil => rfl
    | cons b bs =>
      have hb : b ∉ L := h b (by simp)
      rw [isin_cons, maskSelect_cons, ih bs (fun v hv => h v (by simp [hv]))]
      simp [hb]

/-- Two volumes that agree on every voxel whose label lies in `S` produce
    the same selection for any label set `L` contained in `S`. -/
lemma maskSelect_congr (S L : List ℤ) (hLS : ∀ v : ℤ, v ∈ L → v ∈ S) :
    ∀ (img1 img2 : List ℝ) (seg : List ℤ),
      img1.length = img2.length →
      (∀ t ∈ (img1.zip img2).zip seg, t.2 ∈ S → t.1.1 = t.1.2) →
      maskSelect img1 (isin seg L) = maskSelect img2 (isin seg L) := by
  intro img1
  induction img1 with
  | nil =>
    intro img2 seg hlen _
    have : img2 = [] := by
      cases img2 with
      | nil => rfl
      | cons x xs => simp at hlen
    subst this
    rfl
  | cons a as ih =>
    intro img2 seg hlen hagree
    cases img2 with
    | nil => simp at hlen
    | cons b bs =>
      cases seg with
      | nil => rfl
      | cons v vs =>
        have hlen' : as.length = bs.length := by simpa using hlen
        have hagree' : ∀ t ∈ (as.zip bs).zip vs, t.2 ∈ S → t.1.1 = t.1.2 := by
          intro t ht hS
          exact hagree t (by simp [ht]) hS
        have htail := ih bs vs hlen' hagree'
        rw [isin_cons, maskSelect_cons, maskSelect_cons, htail]
        by_cases hv : v ∈ L
        · have hab : a = b := hagree ((a, b), v) (by simp) (hLS v hv)
          simp [hv, hab]
        · simp [hv]

/- ------------------------------------------------------------------ -/
/- Evaluation lemmas for Python rounding at 4 decimals. -/

/-- Rounding a value within 1e-13 below (or equal to) 1 gives exactly 1. -/
lemma pyRound_near_one (x : ℝ) (h1 : 1 - 1e-13 ≤ x) (h2 : x ≤ 1) :
    pyRound x 4 = 1 := by
  norm_num at h1
  rcases eq_or_lt_of_le h2 with heq | hlt
  · subst heq
    have hfl : ⌊(1:ℝ) * 10 ^ 4⌋ = 10000 := by
      rw [Int.floor_eq_iff]
      norm_num
    rw [pyRound, roundHalfEven, hfl]
    norm_num
  · have hlow : (9999.9 : ℝ) ≤ x * 10 ^ 4 := by nlinarith
    have hhigh : x * 10 ^ 4 < 10000 := by nlinarith
    have hfl : ⌊x * 10 ^ 4⌋ = 9999 := by
      rw [Int.floor_eq_iff]
      refine ⟨by push_cast; linarith, by push_cast; linarith⟩
    rw [pyRound, roundHalfEven, hfl]
    rw [if_neg (by push_cast; linarith), if_pos (by push_cast; linarith)]
    norm_num

/-- Rounding one third to 4 decimal places gives 0.3333. -/
lemma pyRound_one_third : pyRound (1 / 3 : ℝ) 4 = 3333 / 10000 := by
  have hfl : ⌊(1 / 3 : ℝ) * 10 ^ 4⌋ = 3333 := by
    rw [Int.floor_eq_iff]
    norm_num
  rw [pyRound, roundHalfEven, hfl]
  rw [if_pos (by push_cast; norm_num)]
  norm_num

/- ------------------------------------------------------------------ -/
/- Scaling lemmas for the numpy collaborators. -/

/-- Sums of pointwise-scaled maps factor the scale out. -/
lemma sum_map_mul (k : ℝ) (f : ℝ → ℝ) (xs : List ℝ) :
    (xs.map (fun v => k * f v)).sum = k * (xs.map f).sum := by
  induction xs with
  | nil => simp
  | cons a t ih => simp [ih]; ring

/-- The mean scales linearly with the intensities. -/
lemma npMean_smul (k : ℝ) (xs : List ℝ) :
    npMean (xs.map (fun v => k * v)) = k * npMean xs := by
  have h := sum_map_mul k (fun v => v) xs
  simp only [List.map_id'] at h
  simp [npMean, h, mul_div_assoc]

/-- The population standard deviation scales by a nonnegative factor. -/
lemma npStd_smul (k : ℝ) (hk : 0 ≤ k) (xs : List ℝ) :
    npStd (xs.map (fun v => k * v)) = k * npStd xs := by
  have hinner : (xs.map (fun v => k * v)).map
        (fun x => (x - npMean (xs.map (fun v => k * v))) ^ 2)
      = xs.map (fun x => k ^ 2 * (x - npMean xs) ^ 2) := by
    rw [npMean_smul, List.map_map]
    apply List.map_congr_left
    intro x _
    simp only [Function.comp_apply]
    ring
  rw [npStd, npStd, hinner, sum_map_mul (k ^ 2) (fun x => (x - npMean xs) ^ 2),
    List.length_map, mul_div_assoc, Real.sqrt_mul (sq_nonneg k), Real.sqrt_sq hk]

/- ------------------------------------------------------------------ -/
/- The entropy focus criterion on a uniform volume. -/

/-- Cancellation pattern behind the EFC normalization. -/
lemma efc_div_aux (n s L X : ℝ) (hn : n ≠ 0) (hs : s ≠ 0) (hL : L ≠ 0) :
    1 / (1 * n * (1 / s) * L) * (n * (1 / s * X)) = X / L := by
  field_simp
  ring

/-- Closed form of the full-precision EFC core on a uniform volume of
    n voxels of positive value c with no frame mask. -/
lemma efc_core_replicate (n : ℕ) (c : ℝ) (hn : 2 ≤ n) (hc : 0 < c) :
    efc_core (List.replicate n c) none =
      Real.log ((c + 1e-16) / (c * Real.sqrt n)) / Real.log (1 / Real.sqrt n) := by
  have hnN : 0 < n := lt_of_lt_of_le (by norm_num) hn
  have hn0 : (0:ℝ) < (n : ℝ) := by exact_mod_cast hnN
  have hs0 : 0 < Real.sqrt n := Real.sqrt_pos.mpr hn0
  have hs1 : 1 < Real.sqrt n := by
    have h1n : (1:ℝ) < (n : ℝ) := by
      exact_mod_cast lt_of_lt_of_le (by norm_num) hn
    calc (1:ℝ) = Real.sqrt 1 := Real.sqrt_one.symm
    _ < Real.sqrt n := Real.sqrt_lt_sqrt (by norm_num) h1n
  have hL : Real.log (1 / Real.sqrt n) < 0 :=
    Real.log_neg (by positivity) ((div_lt_one hs0).mpr hs1)
  simp only [efc_core, Option.getD_none, List.length_replicate, included_replicate]
  have hnv : ((List.replicate n (0:ℤ)).map (fun m => 1 - m)).sum = (n : ℤ) := by
    simp [List.map_replicate, List.sum_replicate]
  rw [hnv]
  have hb : ((List.replicate n c).map (fun v => v ^ 2)).sum = (n : ℝ) * c ^ 2 := by
    simp [List.map_replicate, List.sum_replicate, nsmul_eq_mul]
  rw [hb]
  have hbmax : Real.sqrt ((n:ℝ) * c ^ 2) = c * Real.sqrt n := by
    rw [Real.sqrt_mul hn0.le, Real.sqrt_sq hc.le, mul_comm]
  rw [hbmax]
  have hsum : ((List.replicate n c).map
      (fun v => v / (c * Real.sqrt n) * Real.log ((v + 1e-16) / (c * Real.sqrt n)))).sum
      = (n : ℝ) * (c / (c * Real.sqrt n) * Real.log ((c + 1e-16) / (c * Real.sqrt n))) := by
    simp [List.map_replicate, List.sum_replicate, nsmul_eq_mul]
  rw [hsum]
  have hcs : c / (c * Real.sqrt n) = 1 / Real.sqrt n := by
    rw [div_mul_eq_div_div, div_self hc.ne']
  rw [hcs]
  rw [show (1.0 : ℝ) = 1 from by norm_num]
  push_cast
  exact efc_div_aux (n : ℝ) (Real.sqrt n)
    (Real.log (1 / Real.sqrt n)) (Real.log ((c + 1e-16) / (c * Real.sqrt n)))
    hn0.ne' hs0.ne' (ne_of_lt hL)

/-- The EFC of a uniform volume of n voxels of value c, with the source's
    default 4-decimal rounding, is exactly 1 for n at least 2 and c at
    least 1. -/
lemma efc_replicate_eq_one (n : ℕ) (c : ℝ) (hn : 2 ≤ n) (hc : 1 ≤ c) :
    efc (List.replicate n c) none 4 = 1 := by
  have hc0 : 0 < c := lt_of_lt_of_le one_pos hc
  have hnN : 0 < n := lt_of_lt_of_le (by norm_num) hn
  have hn0 : (0:ℝ) < (n : ℝ) := by exact_mod_cast hnN
  have hs0 : 0 < Real.sqrt n := Real.sqrt_pos.mpr hn0
  have hs1 : 1 < Real.sqrt n := by
    have h1n : (1:ℝ) < (n : ℝ) := by
      exact_mod_cast lt_of_lt_of_le (by norm_num) hn
    calc (1:ℝ) = Real.sqrt 1 := Real.sqrt_one.symm
    _ < Real.sqrt n := Real.sqrt_lt_sqrt (by norm_num) h1n
  have heps : (0:ℝ) < 1e-16 := by norm_num
  -- bound the log of the square root from below
  have hsqrt2 : Real.sqrt 2 ≤ Real.sqrt n := by
    apply Real.sqrt_le_sqrt
    exact_mod_cast hn
  have hlog_sqrt2 : Real.log (Real.sqrt 2) = Real.log 2 / 2 :=
    Real.log_sqrt (by norm_num)
  have hlog2 : (0.6931471803 : ℝ) < Real.log 2 := Real.log_two_gt_d9
  have hlogs : (1/4 : ℝ) ≤ Real.log (Real.sqrt n) := by
    have hmono : Real.log (Real.sqrt 2) ≤ Real.log (Real.sqrt n) :=
      Real.log_le_log (Real.sqrt_pos.mpr (by norm_num)) hsqrt2
    rw [hlog_sqrt2] at hmono
    linarith
  -- the relative perturbation of the numerator log
  have hA_pos : 0 < Real.log (c + 1e-16) - Real.log c := by
    have := Real.log_lt_log hc0 (by linarith : c < c + 1e-16)
    linarith
  have hA_le : Real.log (c + 1e-16) - Real.log c ≤ 1e-16 := by
    have hdiv : Real.log ((c + 1e-16) / c) ≤ (c + 1e-16) / c - 1 :=
      Real.log_le_sub_one_of_pos (by positivity)
    have hexp : Real.log ((c + 1e-16) / c) = Real.log (c + 1e-16) - Real.log c :=
      Real.log_div (by positivity) hc0.ne'
    have hsimp : (c + 1e-16) / c - 1 = 1e-16 / c := by
      field_simp
    have hle : (1e-16 : ℝ) / c ≤ 1e-16 := div_le_self (by norm_num) hc
    rw [hexp, hsimp] at hdiv
    linarith
  -- rewrite the core as 1 minus a positive perturbation
  have hcore : efc_core (List.replicate n c) none =
      1 - (Real.log (c + 1e-16) - Real.log c) / Real.log (Real.sqrt n) := by
    rw [efc_core_replicate n c hn hc0]
    have hnum : Real.log ((c + 1e-16) / (c * Real.sqrt n)) =
        Real.log (c + 1e-16) - Real.log c - Real.log (Real.sqrt n) := by
      rw [Real.log_div (by positivity) (by positivity),
        Real.log_mul hc0.ne' hs0.ne']
      ring
    have hden : Real.log (1 / Real.sqrt n) = -Real.log (Real.sqrt n) := by
      rw [one_div, Real.log_inv]
    have hlogs_ne : Real.log (Real.sqrt n) ≠ 0 := by
      intro h0
      rw [h0] at hlogs
      norm_num at hlogs
    rw [hnum, hden, div_neg, sub_sub, sub_div, add_div,
      div_self hlogs_ne]
    ring
  -- bound the perturbation
  have hD_pos : 0 < (Real.log (c + 1e-16) - Real.log c) / Real.log (Real.sqrt n) :=
    div_pos hA_pos (by linarith)
  have hD_le : (Real.log (c + 1e-16) - Real.log c) / Real.log (Real.sqrt n) ≤
      1e-16 / (1/4) := by
    apply div_le_div₀ (by norm_num) hA_le (by norm_num) hlogs
  rw [efc, hcore]
  apply pyRound_near_one
  · norm_num at hD_le ⊢
    linarith
  · linarith

/- ------------------------------------------------------------------ -/
/- Concrete evaluation of the EFC core on the eight-voxel volume
   [4, 4, 4, 4, 0, 0, 0, 0].  Every intensity ratio in this volume is a
   power of two, so the float64 program computes the same expression (in
   particular 4 + 1e-16 rounds to 4 there), and the full-precision value
   is sqrt(2)/3 - O(1e-17), approximately 0.4714045 — strictly between
   0.4714 and 0.4715, hence not a 4-decimal value. -/

/-- Closed form of the full-precision EFC core on [4, 4, 4, 4, 0, 0, 0, 0]:
    the four zero voxels contribute nothing and the four others contribute
    (1/2)ln((4+eps)/8) each. -/
lemma efc_core_eight :
    efc_core [(4:ℝ), 4, 4, 4, 0, 0, 0, 0] none =
      2 * Real.log ((4 + 1e-16) / 8) / (Real.sqrt 8 * Real.log (1 / Real.sqrt 8)) := by
  have hinc : included [(4:ℝ), 4, 4, 4, 0, 0, 0, 0] (List.replicate 8 0) =
      [4, 4, 4, 4, 0, 0, 0, 0] := rfl
  simp only [efc_core, Option.getD_none, List.length_cons, List.length_nil, hinc]
  norm_num
  rw [show (64:ℝ) = 8 ^ 2 from by norm_num, Real.sqrt_sq (by norm_num)]
  rw [show (8:ℝ) * (Real.sqrt 8)⁻¹ = Real.sqrt 8 from by
    have h := Real.mul_self_sqrt (show (0:ℝ) ≤ 8 by norm_num)
    have hne : Real.sqrt 8 ≠ 0 := by positivity
    field_simp]
  ring_nf

/-- The full-precision EFC core on [4, 4, 4, 4, 0, 0, 0, 0] lies strictly
    between 0.4714 and 0.4715, so it is not an integer multiple of 1e-4. -/
lemma efc_core_eight_bounds :
    0.4714 < efc_core [(4:ℝ), 4, 4, 4, 0, 0, 0, 0] none ∧
      efc_core [(4:ℝ), 4, 4, 4, 0, 0, 0, 0] none < 0.4715 := by
  rw [efc_core_eight]
  have hlog2_pos : (0:ℝ) < Real.log 2 := Real.log_pos (by norm_num)
  have hlog2_lo : (1/2 : ℝ) ≤ Real.log 2 := by
    have := Real.log_two_gt_d9
    linarith
  have hs2_pos : (0:ℝ) < Real.sqrt 2 := Real.sqrt_pos.mpr (by norm_num)
  have hs2_lo : (1.4142135 : ℝ) < Real.sqrt 2 := by
    have h := Real.sq_sqrt (show (0:ℝ) ≤ 2 by norm_num)
    nlinarith [hs2_pos]
  have hs2_hi : Real.sqrt 2 < 1.4142136 := by
    have h := Real.sq_sqrt (show (0:ℝ) ≤ 2 by norm_num)
    nlinarith [hs2_pos]
  have hs8 : Real.sqrt 8 = 2 * Real.sqrt 2 := by
    rw [show (8:ℝ) = 2 ^ 2 * 2 from by norm_num, Real.sqrt_mul (by positivity),
      Real.sqrt_sq (by norm_num)]
  have hlog8 : Real.log (1 / Real.sqrt 8) = -(3 / 2 * Real.log 2) := by
    rw [one_div, Real.log_inv, Real.log_sqrt (by norm_num),
      show (8:ℝ) = 2 ^ 3 from by norm_num, Real.log_pow]
    push_cast
    ring
  have hlog4 : Real.log 4 = 2 * Real.log 2 := by
    rw [show (4:ℝ) = 2 ^ 2 from by norm_num, Real.log_pow]
    push_cast
    ring
  have hA : Real.log ((4 + 1e-16) / 8) =
      (Real.log (4 + 1e-16) - Real.log 4) - Real.log 2 := by
    rw [Real.log_div (by norm_num) (by norm_num),
      show (8:ℝ) = 2 ^ 3 from by norm_num, Real.log_pow]
    push_cast
    linarith
  have hd_pos : 0 < Real.log (4 + 1e-16) - Real.log 4 := by
    have := Real.log_lt_log (show (0:ℝ) < 4 by norm_num)
      (show (4:ℝ) < 4 + 1e-16 by norm_num)
    linarith
  have hd_le : Real.log (4 + 1e-16) - Real.log 4 ≤ 1e-16 := by
    have h1 : Real.log ((4 + 1e-16) / 4) ≤ (4 + 1e-16) / 4 - 1 :=
      Real.log_le_sub_one_of_pos (by norm_num)
    have h2 : Real.log ((4 + 1e-16) / 4) = Real.log (4 + 1e-16) - Real.log 4 :=
      Real.log_div (by norm_num) (by norm_num)
    have h3 : ((4:ℝ) + 1e-16) / 4 - 1 = 1e-16 / 4 := by norm_num
    rw [h2, h3] at h1
    linarith
  rw [hA, hlog8, hs8]
  have hden_pos : 0 < 2 * Real.sqrt 2 * (3 / 2 * Real.log 2) := by positivity
  have hden_neg : 2 * Real.sqrt 2 * -(3 / 2 * Real.log 2) < 0 := by nlinarith
  have hrw : 2 * (Real.log (4 + 1e-16) - Real.log 4 - Real.log 2) /
      (2 * Real.sqrt 2 * -(3 / 2 * Real.log 2)) =
      (2 * Real.log 2 - 2 * (Real.log (4 + 1e-16) - Real.log 4)) /
        (2 * Real.sqrt 2 * (3 / 2 * Real.log 2)) := by
    rw [div_eq_div_iff (ne_of_lt hden_neg) (ne_of_gt hden_pos)]
    ring
  rw [hrw]
  constructor
  · rw [lt_div_iff₀ hden_pos]
    nlinarith
  · rw [div_lt_iff₀ hden_pos]
    nlinarith

/- ------------------------------------------------------------------ -/
/- Claim C1. -/

/-- C1 (amended).  For every uniform volume of at least 2 voxels of a
    constant value c with 1 ≤ c and no frame mask, `efc` returns exactly 1
    (the full-precision core is 1 minus a perturbation of order 1e-16,
    which the internal default 4-decimal rounding maps to 1) — not 0 as
    the claim states; the value 0 is attained when all energy sits in a
    single voxel, not when all voxels are equal. -/
theorem efc_uniform_returns_one (n : ℕ) (c : ℝ) (hn : 2 ≤ n) (hc : 1 ≤ c) :
    efc (List.replicate n c) none 4 = 1 :=
  efc_replicate_eq_one n c hn hc

/-- C1 counterexample: on the spec's own scenario — a uniform 10x10x10
    volume of value 5.0 with no frame mask — `efc` is not within 1e-9
    of 0 (it equals 1). -/
theorem efc_uniform_not_within_tolerance_of_zero :
    ¬ (|efc (List.replicate 1000 (5:ℝ)) none 4| ≤ 1e-9) := by
  rw [efc_replicate_eq_one 1000 5 (by norm_num) (by norm_num)]
  norm_num

/-- C1 witness: the amended theorem applied to a concrete uniform volume. -/
theorem efc_uniform_returns_one_witness :
    efc (List.replicate 10 (7:ℝ)) none 4 = 1 :=
  efc_uniform_returns_one 10 7 (by norm_num) (by norm_num)

/- ------------------------------------------------------------------ -/
/- Claim C3. -/

/-- C3 (amended).  Rounding to a caller-configurable number of decimal
    places (default 4) is applied inside `efc` itself, as the final step
    of the metric function: every value it returns is an integer multiple
    of 10^(-decimals), not the full-precision core value. -/
theorem efc_rounds_internally (img : List ℝ) (framemask : Option (List ℤ))
    (decimals : ℕ) :
    ∃ z : ℤ, efc img framemask decimals = (z : ℝ) / 10 ^ decimals :=
  ⟨roundHalfEven (efc_core img framemask * 10 ^ decimals), rfl⟩

/-- C3 counterexample: on the volume [4, 4, 4, 4, 0, 0, 0, 0] the value
    returned by `efc` (with the default 4 decimals) differs from the
    full-precision core computation: the core lies strictly between
    0.4714 and 0.4715 (it is sqrt(2)/3 minus a perturbation of order
    1e-17), while the returned value is an integer multiple of 1e-4.
    The same divergence occurs in the float64 program, where every
    intensity ratio is an exact power of two. -/
theorem efc_not_full_precision :
    efc [(4:ℝ), 4, 4, 4, 0, 0, 0, 0] none 4 ≠
      efc_core [(4:ℝ), 4, 4, 4, 0, 0, 0, 0] none := by
  intro h
  obtain ⟨hlo, hhi⟩ := efc_core_eight_bounds
  rw [efc, pyRound, div_eq_iff (show (10:ℝ) ^ 4 ≠ 0 by norm_num)] at h
  have hz_lo : (4714 : ℝ) <
      ((roundHalfEven (efc_core [(4:ℝ), 4, 4, 4, 0, 0, 0, 0] none * 10 ^ 4) : ℤ) : ℝ) := by
    rw [h]
    nlinarith
  have hz_hi :
      ((roundHalfEven (efc_core [(4:ℝ), 4, 4, 4, 0, 0, 0, 0] none * 10 ^ 4) : ℤ) : ℝ) <
        (4715 : ℝ) := by
    rw [h]
    nlinarith
  have hz_lo' : (4714 : ℤ) <
      roundHalfEven (efc_core [(4:ℝ), 4, 4, 4, 0, 0, 0, 0] none * 10 ^ 4) := by
    exact_mod_cast hz_lo
  have hz_hi' : roundHalfEven (efc_core [(4:ℝ), 4, 4, 4, 0, 0, 0, 0] none * 10 ^ 4) <
      (4715 : ℤ) := by
    exact_mod_cast hz_hi
  omega

/- ------------------------------------------------------------------ -/
/- Claim C7. -/

/-- C7.  For every volume with at least 2 elements and every positive
    constant k, `anatomical_snr` of the volume with every intensity
    multiplied by k equals `anatomical_snr` of the original volume. -/
theorem snr_scale_invariant (img : List ℝ) (k : ℝ) (d : ℕ)
    (hlen : 2 ≤ img.length) (hk : 0 < k) :
    anatomical_snr (img.map (fun v => k * v)) d = anatomical_snr img d := by
  unfold anatomical_snr
  congr 1
  simp only [anatomical_snr_core, npMean_smul, npStd_smul k hk.le, List.length_map]
  rw [mul_assoc]
  rw [mul_div_mul_left _ _ (ne_of_gt hk)]

/-- C7 witness: the theorem applied to a concrete volume and scale. -/
theorem snr_scale_invariant_witness :
    anatomical_snr (([1, 2] : List ℝ).map (fun v => 2 * v)) 4 =
      anatomical_snr [1, 2] 4 :=
  snr_scale_invariant [1, 2] 2 4 (by simp) (by norm_num)

/- ------------------------------------------------------------------ -/
/- Claim C8. -/

/-- Swapping numerator summands and the orientation of an absolute
    difference leaves a quotient unchanged. -/
lemma swap_div_abs (A B C D : ℝ) : (A + B) / |C - D| = (B + A) / |D - C| := by
  rw [abs_sub_comm, add_comm]

/-- C8.  For every volume and label array satisfying the cjv
    preconditions (identical length, at least one white-matter and one
    gray-matter voxel), swapping the white-matter label set with the
    gray-matter label set leaves the cjv result unchanged. -/
theorem cjv_label_swap_symmetric (img : List ℝ) (seg : List ℤ) (d : ℕ)
    (hlen : img.length = seg.length)
    (hwm : ∃ v ∈ seg, v ∈ WM_LABELS) (hgm : ∃ v ∈ seg, v ∈ GM_LABELS) :
    cjv_with GM_LABELS WM_LABELS img seg d = cjv img seg d := by
  unfold cjv cjv_with
  congr 1
  simp only [cjv_core_labels]
  exact swap_div_abs _ _ _ _

/-- C8 witness: the theorem applied to a concrete volume and label array. -/
theorem cjv_label_swap_symmetric_witness :
    cjv_with GM_LABELS WM_LABELS [1, 2] [2, 3] 4 = cjv [1, 2] [2, 3] 4 :=
  cjv_label_swap_symmetric [1, 2] [2, 3] 4 rfl (by decide) (by decide)

/- ------------------------------------------------------------------ -/
/- Claim C2. -/

/-- C2 (amended).  For every volume and label array of identical length
    containing at least one white-matter, one gray-matter and one
    background voxel, `cnr` partitions the voxels by set membership in
    the three label sets and returns the value
    (mean_wm - mean_gm) / sqrt(std_bg^2 + std_wm^2 + std_gm^2) — with
    mean and population standard deviation taken over the restrictions —
    rounded to the requested number of decimal places (default 4), not
    that value at full precision. -/
theorem cnr_formula_rounded (img : List ℝ) (seg : List ℤ) (d : ℕ)
    (hlen : img.length = seg.length)
    (hwm : ∃ v ∈ seg, v ∈ WM_LABELS) (hgm : ∃ v ∈ seg, v ∈ GM_LABELS)
    (hbg : ∃ v ∈ seg, v ∈ BG_LABELS) :
    cnr img seg d =
      pyRound ((specMean (restrictTo img seg WM_LABELS) -
          specMean (restrictTo img seg GM_LABELS)) /
        Real.sqrt (specStd (restrictTo img seg BG_LABELS) ^ 2 +
          specStd (restrictTo img seg WM_LABELS) ^ 2 +
          specStd (restrictTo img seg GM_LABELS) ^ 2)) d := by
  simp only [cnr, cnr_core, maskSelect_isin]
  rfl

/-- C2 witness: the theorem applied to a concrete volume and label array
    with one white-matter, one gray-matter and two background voxels. -/
theorem cnr_formula_rounded_witness :
    cnr [(1:ℝ), 0, 0, 6] [2, 3, 0, 0] 4 =
      pyRound ((specMean (restrictTo [(1:ℝ), 0, 0, 6] [2, 3, 0, 0] WM_LABELS) -
          specMean (restrictTo [(1:ℝ), 0, 0, 6] [2, 3, 0, 0] GM_LABELS)) /
        Real.sqrt (specStd (restrictTo [(1:ℝ), 0, 0, 6] [2, 3, 0, 0] BG_LABELS) ^ 2 +
          specStd (restrictTo [(1:ℝ), 0, 0, 6] [2, 3, 0, 0] WM_LABELS) ^ 2 +
          specStd (restrictTo [(1:ℝ), 0, 0, 6] [2, 3, 0, 0] GM_LABELS) ^ 2)) 4 :=
  cnr_formula_rounded [(1:ℝ), 0, 0, 6] [2, 3, 0, 0] 4 rfl
    (by decide) (by decide) (by decide)

/-- Concrete evaluation of the full-precision CNR core: one white-matter
    voxel of intensity 1, one gray-matter voxel of intensity 0, two
    background voxels of intensities 0 and 6 give (1 - 0)/sqrt(9) = 1/3. -/
lemma cnr_core_example :
    cnr_core [(1:ℝ), 0, 0, 6] [2, 3, 0, 0] = 1 / 3 := by
  have hwm : maskSelect [(1:ℝ), 0, 0, 6] (isin [2, 3, 0, 0] WM_LABELS) = [1] := rfl
  have hgm : maskSelect [(1:ℝ), 0, 0, 6] (isin [2, 3, 0, 0] GM_LABELS) = [0] := rfl
  have hbg : maskSelect [(1:ℝ), 0, 0, 6] (isin [2, 3, 0, 0] BG_LABELS) = [0, 6] := rfl
  simp only [cnr_core, hwm, hgm, hbg]
  have hm1 : npMean [(1:ℝ)] = 1 := by simp [npMean]
  have hm0 : npMean [(0:ℝ)] = 0 := by simp [npMean]
  have hmbg : npMean [(0:ℝ), 6] = 3 := by norm_num [npMean]
  have hs1 : npStd [(1:ℝ)] = 0 := by simp [npStd, npMean]
  have hs0 : npStd [(0:ℝ)] = 0 := by simp [npStd, npMean]
  have hsbg : npStd [(0:ℝ), 6] = 3 := by
    rw [npStd, hmbg]
    norm_num
    rw [show (9:ℝ) = 3 ^ 2 by norm_num, Real.sqrt_sq (by norm_num)]
  rw [hm1, hm0, hs1, hs0, hsbg]
  norm_num
  rw [show (9:ℝ) = 3 ^ 2 by norm_num, Real.sqrt_sq (by norm_num)]
  norm_num

/-- C2 counterexample: on a concrete volume and label array, `cnr` does
    not return the formula value itself (which is 1/3 there): it returns
    the 4-decimal rounding 0.3333. -/
theorem cnr_not_exact_formula :
    cnr [(1:ℝ), 0, 0, 6] [2, 3, 0, 0] 4 ≠
      (specMean (restrictTo [(1:ℝ), 0, 0, 6] [2, 3, 0, 0] WM_LABELS) -
          specMean (restrictTo [(1:ℝ), 0, 0, 6] [2, 3, 0, 0] GM_LABELS)) /
        Real.sqrt (specStd (restrictTo [(1:ℝ), 0, 0, 6] [2, 3, 0, 0] BG_LABELS) ^ 2 +
          specStd (restrictTo [(1:ℝ), 0, 0, 6] [2, 3, 0, 0] WM_LABELS) ^ 2 +
          specStd (restrictTo [(1:ℝ), 0, 0, 6] [2, 3, 0, 0] GM_LABELS) ^ 2) := by
  have hfor : (specMean (restrictTo [(1:ℝ), 0, 0, 6] [2, 3, 0, 0] WM_LABELS) -
          specMean (restrictTo [(1:ℝ), 0, 0, 6] [2, 3, 0, 0] GM_LABELS)) /
        Real.sqrt (specStd (restrictTo [(1:ℝ), 0, 0, 6] [2, 3, 0, 0] BG_LABELS) ^ 2 +
          specStd (restrictTo [(1:ℝ), 0, 0, 6] [2, 3, 0, 0] WM_LABELS) ^ 2 +
          specStd (restrictTo [(1:ℝ), 0, 0, 6] [2, 3, 0, 0] GM_LABELS) ^ 2) =
      cnr_core [(1:ℝ), 0, 0, 6] [2, 3, 0, 0] := by
    simp only [cnr_core, maskSelect_isin]
    rfl
  have hL : cnr [(1:ℝ), 0, 0, 6] [2, 3, 0, 0] 4 = 3333 / 10000 := by
    rw [cnr, cnr_core_example, pyRound_one_third]
  rw [hL, hfor, cnr_core_example]
  norm_num

/- ------------------------------------------------------------------ -/
/- Claim C9. -/

/-- NaN on the left of a binary operation propagates. -/
lemma nanOp2_none_left (f : ℝ → ℝ → ℝ) (b : Option ℝ) : nanOp2 f none b = none := by
  cases b <;> rfl

/-- NaN on the right of a binary operation propagates. -/
lemma nanOp2_none_right (f : ℝ → ℝ → ℝ) (a : Option ℝ) : nanOp2 f a none = none := by
  cases a <;> rfl

/-- C9.  For every volume and same-length label array in which no voxel
    carries a background label, `cnr` does not raise: the standard
    deviation of the empty background selection is NaN and that NaN
    propagates to the returned value (the pipeline is a total function
    whose result is `none`, the NaN of the model). -/
theorem cnr_no_background_returns_nan (img : List ℝ) (seg : List ℤ) (d : ℕ)
    (hlen : img.length = seg.length) (hbg : ∀ v ∈ seg, v ∉ BG_LABELS) :
    cnrN img seg d = none := by
  have hsel : maskSelect img (isin seg BG_LABELS) = [] :=
    maskSelect_isin_nil img seg BG_LABELS hbg
  simp only [cnrN, hsel]
  simp [nanStd, nanSq, nanSqrt, nanRound, nanOp2_none_left, nanOp2_none_right]

/-- C9 witness: the theorem applied to a concrete background-free
    label array. -/
theorem cnr_no_background_returns_nan_witness :
    cnrN [(1:ℝ), 2] [2, 3] 4 = none :=
  cnr_no_background_returns_nan [(1:ℝ), 2] [2, 3] 4 rfl (by decide)

/- ------------------------------------------------------------------ -/
/- Claim C10. -/

/-- C10.  For every label array and every two volumes of the same length
    agreeing on all voxels whose label lies in the union of the
    white-matter, gray-matter and background label sets, `cnr` returns
    the same value on both volumes; and `cjv` returns the same value on
    two volumes agreeing on all voxels whose label lies in the union of
    the white-matter and gray-matter label sets.  Intensities at voxels
    outside those label sets never influence the results. -/
theorem cnr_cjv_depend_only_on_labeled_voxels (img1 img2 : List ℝ) (seg : List ℤ)
    (d : ℕ) (h1 : img1.length = seg.length) (h2 : img2.length = seg.length) :
    ((∀ t ∈ (img1.zip img2).zip seg,
        t.2 ∈ WM_LABELS ++ GM_LABELS ++ BG_LABELS → t.1.1 = t.1.2) →
      cnr img1 seg d = cnr img2 seg d) ∧
    ((∀ t ∈ (img1.zip img2).zip seg,
        t.2 ∈ WM_LABELS ++ GM_LABELS → t.1.1 = t.1.2) →
      cjv img1 seg d = cjv img2 seg d) := by
  have hlen : img1.length = img2.length := by rw [h1, h2]
  constructor
  · intro hagree
    have hWM := maskSelect_congr (WM_LABELS ++ GM_LABELS ++ BG_LABELS) WM_LABELS
      (by intro v hv; simp [List.mem_append, hv]) img1 img2 seg hlen hagree
    have hGM := maskSelect_congr (WM_LABELS ++ GM_LABELS ++ BG_LABELS) GM_LABELS
      (by intro v hv; simp [List.mem_append, hv]) img1 img2 seg hlen hagree
    have hBG := maskSelect_congr (WM_LABELS ++ GM_LABELS ++ BG_LABELS) BG_LABELS
      (by intro v hv; simp [List.mem_append, hv]) img1 img2 seg hlen hagree
    simp only [cnr, cnr_core, hWM, hGM, hBG]
  · intro hagree
    have hWM := maskSelect_congr (WM_LABELS ++ GM_LABELS) WM_LABELS
      (by intro v hv; simp [List.mem_append, hv]) img1 img2 seg hlen hagree
    have hGM := maskSelect_congr (WM_LABELS ++ GM_LABELS) GM_LABELS
      (by intro v hv; simp [List.mem_append, hv]) img1 img2 seg hlen hagree
    simp only [cjv, cjv_with, cjv_core_labels, hWM, hGM]

/-- C10 witness: two volumes differing only at a voxel labeled 7 (outside
    all three tissue label sets) give identical CNR and CJV. -/
theorem cnr_cjv_depend_only_on_labeled_voxels_witness :
    cnr [(1:ℝ), 2, 3, 4] [2, 3, 0, 7] 4 = cnr [(1:ℝ), 2, 3, 9] [2, 3, 0, 7] 4 ∧
    cjv [(1:ℝ), 2, 3, 4] [2, 3, 0, 7] 4 = cjv [(1:ℝ), 2, 3, 9] [2, 3, 0, 7] 4 := by
  have h := cnr_cjv_depend_only_on_labeled_voxels
    [(1:ℝ), 2, 3, 4] [(1:ℝ), 2, 3, 9] [2, 3, 0, 7] 4 rfl rfl
  refine ⟨h.1 ?_, h.2 ?_⟩ <;>
  · intro t ht hmem
    have ht' : t ∈ [(((1:ℝ), (1:ℝ)), (2:ℤ)), ((2, 2), 3), ((3, 3), 0), ((4, 9), 7)] := ht
    simp only [List.mem_cons, List.not_mem_nil, or_false] at ht'
    rcases ht' with h' | h' | h' | h' <;> subst h' <;>
      first
        | rfl
        | exact absurd hmem (by decide)

/- ------------------------------------------------------------------ -/
/- Claim C5. -/

/-- C5.  For every cohort row whose manual-segmentation file does not
    exist, the batch orchestrator records both CNR and CJV as null in
    that row's metrics row without raising, and still emits the row with
    its EFC and SNR values. -/
theorem missing_segmentation_yields_null_cnr_cjv (fdata ss : List ℝ) :
    processRow ⟨some fdata, some ss, none⟩ =
      Except.ok ⟨efc ((fdata.map truncInt32).map (fun z => (z : ℝ))) none 4,
        anatomical_snr ss 4, none, none⟩ := rfl

/- ------------------------------------------------------------------ -/
/- Claim C4. -/

/-- C4 (code evaluated at the failing input).  A cohort row whose
    skull-stripped file is missing makes `nib.load` raise, aborting the
    whole batch: no metrics row with a null SNR is recorded, contrary to
    the tolerant policy used for segmentation. -/
theorem missing_skullstrip_raises :
    calculate_metrics [⟨some [(1:ℝ), 2], none, some [2]⟩] =
      Except.error RunError.missingSkullstrip := rfl

/- ------------------------------------------------------------------ -/
/- Claim C6. -/

/-- C6 (code evaluated at the failing input).  For a row whose
    segmentation exists but whose label array's shape (length 2) does not
    match the primary volume's (length 3), the orchestrator performs no
    shape validation: the mismatch surfaces as numpy's `IndexError`
    raised during the per-voxel boolean masking inside the metric call,
    not as a structural error reported before masking is attempted. -/
theorem shape_mismatch_raises_index_error :
    processRow ⟨some [(1:ℝ), 2, 3], some [(1:ℝ), 2], some [0, 2]⟩ =
      Except.error RunError.indexError := rfl
